import Mathlib

/-!
Verification of the rotoclone-zone site builder and live-reload pipeline.

The Rust sources under `src/` are shallowly embedded: timestamps become `Int`,
filesystem paths become `String`, fallible functions return `Except`, and the
directory scan is abstracted as the list of directory children it visits.
External libraries (the chrono date display, the TOML deserializer, the
markdown renderer) are not part of the repository; where a theorem depends on
them they appear as parameters or as minimal documented models.
-/

/-- The template to use to render blog entries that have no template defined in
their front matter (`site.rs`, `DEFAULT_BLOG_ENTRY_TEMPLATE_NAME`). -/
def DEFAULT_BLOG_ENTRY_TEMPLATE_NAME : String := "blog_entry"

/-- Whether comments should be enabled on blog entries by default
(`site.rs`, `DEFAULT_COMMENTS_ENABLED`). -/
def DEFAULT_COMMENTS_ENABLED : Bool := true

/-- The string used to delimit the beginning and end of the front matter
(`site.rs`, `FRONT_MATTER_DELIMITER`). -/
def FRONT_MATTER_DELIMITER : String := "+++"

/-- Page size for the paged blog views (`context.rs`, `PAGE_SIZE`). -/
def PAGE_SIZE : Nat := 10

/-- An external discussion link (`site.rs`, `ExternalDiscussion`). -/
structure ExternalDiscussion where
  name : String
  url : String
deriving DecidableEq

/-- A non-content file belonging to a blog entry (`site.rs`, `AssociatedFile`). -/
structure AssociatedFile where
  relative_path : String
  full_path : String
deriving DecidableEq

/-- Metadata of a page (`site.rs`, `PageMetadata`). -/
structure PageMetadata where
  source_file : String
  associated_files : List AssociatedFile
  html_content_file : String
  slug : String
  template_name : String
deriving DecidableEq

/-- A blog entry (`site.rs`, `BlogEntry`). -/
structure BlogEntry where
  title : String
  description : String
  metadata : PageMetadata
  tags : List String
  created_at : Int
  updated_at : Option Int
  comments_enabled : Bool
  external_discussions : List ExternalDiscussion
deriving DecidableEq

/-- The site model (`site.rs`, `Site`). -/
structure Site where
  blog_entries : List BlogEntry
deriving DecidableEq

/-- The front matter of a content file (`site.rs`, `FrontMatter`); every field
is optional. -/
structure FrontMatter where
  slug : Option String
  title : Option String
  description : Option String
  template : Option String
  tags : Option (List String)
  created_at : Option Int
  updated_at : Option Int
  comments_enabled : Option Bool
  external_discussions : Option (List ExternalDiscussion)
deriving DecidableEq

/-- The `FrontMatter` with every field absent. -/
def FrontMatter.empty : FrontMatter :=
  { slug := none, title := none, description := none, template := none,
    tags := none, created_at := none, updated_at := none,
    comments_enabled := none, external_discussions := none }

/-- Errors of `extract_front_matter_and_content`.
`malformedContent` is the `ErrorKind::InvalidInput` error built when the first
line of the file is not the delimiter; `invalidFrontMatter` stands for the
error produced when the TOML deserialization of the front-matter text fails
(an `ErrorKind::InvalidData` error, converted from `toml::de::Error`). -/
inductive ExtractError where
  | malformedContent : ExtractError
  | invalidFrontMatter : ExtractError
deriving DecidableEq

/-- The line loop of `extract_front_matter_and_content` (`site.rs` lines
262-285): `i` is the enumeration index of the next line, `done` is the
`done_with_front_matter` flag, `fmAcc` is `front_matter_string` and
`contentAcc` is `content_lines`. -/
def processLines (i : Nat) (done : Bool) (fmAcc : String) (contentAcc : List String) :
    List String → Except ExtractError (String × List String)
  | [] => Except.ok (fmAcc, contentAcc)
  | line :: rest =>
    if i = 0 then
      if line ≠ FRONT_MATTER_DELIMITER then Except.error ExtractError.malformedContent
      else processLines (i + 1) done fmAcc contentAcc rest
    else if done then processLines (i + 1) done fmAcc (contentAcc ++ [line]) rest
    else if line = FRONT_MATTER_DELIMITER then processLines (i + 1) true fmAcc contentAcc rest
    else processLines (i + 1) done (fmAcc ++ line ++ "\n") contentAcc rest

/-- Parses the front matter and the content from the lines of a content file
(`site.rs`, `extract_front_matter_and_content`). The file appears as its list
of lines (the `BufReader::lines` iteration), and the external TOML
deserializer appears as the parameter `d` (`toml::from_str`, returning `none`
on deserialization failure). On success the content lines are rejoined with
newlines (`content_lines.join`). -/
def extract_front_matter_and_content (d : String → Option FrontMatter)
    (lines : List String) : Except ExtractError (FrontMatter × String) :=
  match processLines 0 false "" [] lines with
  | Except.error e => Except.error e
  | Except.ok (fmStr, contentLines) =>
    match d fmStr with
    | none => Except.error ExtractError.invalidFrontMatter
    | some fm => Except.ok (fm, String.intercalate "\n" contentLines)

/-- Modelled from the spec: the front-matter block is deserialized by the
external `toml` crate, which is not part of this repository. Only the case
this development needs is modelled: since every `FrontMatter` field is
optional (spec section 6, "Front-matter keys (all optional)"), the empty
document is a valid front-matter document and yields the record with every
field absent. Other documents are outside the model and are mapped to `none`;
no theorem below relies on that default. -/
def tomlFromStrModel (s : String) : Option FrontMatter :=
  if s = "" then some FrontMatter.empty else none

/-- The front-matter text accumulated from a list of lines: each line followed
by a newline, concatenated (`front_matter_string.push_str(format ...)`). -/
def fmJoin : List String → String
  | [] => ""
  | line :: rest => line ++ "\n" ++ fmJoin rest

/-- Once `done_with_front_matter` is set, every remaining line is appended to
the content lines, delimiter lines included. -/
theorem processLines_done (rest : List String) : ∀ (i : Nat) (fmAcc : String)
    (contentAcc : List String), i ≠ 0 →
    processLines i true fmAcc contentAcc rest = Except.ok (fmAcc, contentAcc ++ rest) := by
  induction rest with
  | nil => intro i fmAcc contentAcc hi; simp [processLines]
  | cons line rest ih =>
    intro i fmAcc contentAcc hi
    simp only [processLines, if_neg hi, if_pos rfl]
    rw [ih (i + 1) fmAcc (contentAcc ++ [line]) (Nat.succ_ne_zero i)]
    simp

/-- While the closing delimiter has not been seen, every line that is not the
delimiter is appended to the front-matter text. -/
theorem processLines_accumulates (rest : List String) : ∀ (i : Nat) (fmAcc : String)
    (contentAcc : List String), i ≠ 0 → FRONT_MATTER_DELIMITER ∉ rest →
    processLines i false fmAcc contentAcc rest = Except.ok (fmAcc ++ fmJoin rest, contentAcc) := by
  induction rest with
  | nil => intro i fmAcc contentAcc hi _; simp [processLines, fmJoin]
  | cons line rest ih =>
    intro i fmAcc contentAcc hi hmem
    have hline : line ≠ FRONT_MATTER_DELIMITER := by
      intro h; exact hmem (h ▸ List.mem_cons_self line rest)
    simp only [processLines, if_neg hi, Bool.false_eq_true, if_false, if_neg hline]
    rw [ih (i + 1) (fmAcc ++ line ++ "\n") contentAcc (Nat.succ_ne_zero i)
      (fun h => hmem (List.mem_cons_of_mem line h))]
    simp [fmJoin, String.append_assoc]

/-- Splitting behavior after the opening delimiter: the lines before the first
later delimiter become front-matter text, the lines after it become content. -/
theorem processLines_split (pre : List String) : ∀ (post : List String) (i : Nat)
    (fmAcc : String) (contentAcc : List String), i ≠ 0 → FRONT_MATTER_DELIMITER ∉ pre →
    processLines i false fmAcc contentAcc (pre ++ FRONT_MATTER_DELIMITER :: post) =
      Except.ok (fmAcc ++ fmJoin pre, contentAcc ++ post) := by
  induction pre with
  | nil =>
    intro post i fmAcc contentAcc hi _
    simp only [List.nil_append, processLines, if_neg hi, Bool.false_eq_true, if_false, if_pos rfl]
    rw [processLines_done post (i + 1) fmAcc contentAcc (Nat.succ_ne_zero i)]
    simp [fmJoin]
  | cons line pre ih =>
    intro post i fmAcc contentAcc hi hmem
    have hline : line ≠ FRONT_MATTER_DELIMITER := by
      intro h; exact hmem (h ▸ List.mem_cons_self line pre)
    simp only [List.cons_append, processLines, if_neg hi, Bool.false_eq_true, if_false,
      if_neg hline, List.append_eq]
    rw [ih post (i + 1) (fmAcc ++ line ++ "\n") contentAcc (Nat.succ_ne_zero i)
      (fun h => hmem (List.mem_cons_of_mem line h))]
    simp [fmJoin, String.append_assoc]

/-- C7 (amended): when the first line is the delimiter and a later line equals
the delimiter, the front matter is exactly the lines strictly between them and
the body is all the lines after that closing delimiter rejoined with newlines.
Only the opening and closing delimiter lines are excluded: a still-later line
equal to the delimiter token stays in the body. -/
theorem extract_split_on_closing_delimiter (d : String → Option FrontMatter)
    (pre post : List String) (hpre : FRONT_MATTER_DELIMITER ∉ pre) :
    extract_front_matter_and_content d
        (FRONT_MATTER_DELIMITER :: (pre ++ FRONT_MATTER_DELIMITER :: post)) =
      (match d (fmJoin pre) with
       | none => Except.error ExtractError.invalidFrontMatter
       | some fm => Except.ok (fm, String.intercalate "\n" post)) := by
  have h0 : processLines 0 false "" []
      (FRONT_MATTER_DELIMITER :: (pre ++ FRONT_MATTER_DELIMITER :: post)) =
      Except.ok (fmJoin pre, post) := by
    have hs := processLines_split pre post 1 "" [] one_ne_zero hpre
    simp only [String.empty_append, List.nil_append] at hs
    simp [processLines, hs]
  unfold extract_front_matter_and_content
  rw [h0]

/-- C7 counterexample: in the file whose three lines are all the delimiter
token, the third delimiter line is the whole body, so delimiter lines after
the closing one are not excluded from the body. -/
theorem extract_third_delimiter_in_body :
    extract_front_matter_and_content tomlFromStrModel
        [FRONT_MATTER_DELIMITER, FRONT_MATTER_DELIMITER, FRONT_MATTER_DELIMITER] =
      Except.ok (FrontMatter.empty, FRONT_MATTER_DELIMITER) := by
  simp [extract_front_matter_and_content, processLines, tomlFromStrModel,
    String.intercalate, String.intercalate.go, FRONT_MATTER_DELIMITER]

/-- Witness for C7: the amended split theorem applied at a concrete file. -/
theorem extract_split_on_closing_delimiter_witness :
    extract_front_matter_and_content tomlFromStrModel
        [FRONT_MATTER_DELIMITER, FRONT_MATTER_DELIMITER, "hello"] =
      Except.ok (FrontMatter.empty, "hello") := by
  have h := extract_split_on_closing_delimiter tomlFromStrModel [] (["hello"])
    (by simp)
  simpa [tomlFromStrModel, fmJoin, String.intercalate] using h

/-- C6 (amended): when the first line is the delimiter and no later line equals
the delimiter, the parser does not fail with `malformedContent`: the remaining
lines are all treated as front-matter text and handed to the TOML
deserializer, so the call succeeds (with an empty body) when they deserialize
and fails with `invalidFrontMatter` otherwise. -/
theorem extract_missing_closing_delimiter (d : String → Option FrontMatter)
    (rest : List String) (hrest : FRONT_MATTER_DELIMITER ∉ rest) :
    extract_front_matter_and_content d (FRONT_MATTER_DELIMITER :: rest) ≠
        Except.error ExtractError.malformedContent ∧
      extract_front_matter_and_content d (FRONT_MATTER_DELIMITER :: rest) =
        (match d (fmJoin rest) with
         | none => Except.error ExtractError.invalidFrontMatter
         | some fm => Except.ok (fm, "")) := by
  have h0 : processLines 0 false "" [] (FRONT_MATTER_DELIMITER :: rest) =
      Except.ok (fmJoin rest, ([] : List String)) := by
    have hs := processLines_accumulates rest 1 "" [] one_ne_zero hrest
    simp only [String.empty_append] at hs
    simp [processLines, hs]
  constructor
  · unfold extract_front_matter_and_content
    rw [h0]
    cases hd : d (fmJoin rest) <;> simp [hd]
  · unfold extract_front_matter_and_content
    rw [h0]
    cases hd : d (fmJoin rest) <;> simp [hd, String.intercalate]

/-- C6 counterexample: the one-line file consisting of just the opening
delimiter has no closing delimiter, yet parsing succeeds (the remainder is the
empty front-matter document, which deserializes with every field absent); it
does not fail with `malformedContent` as the claim states. -/
theorem extract_missing_closing_delimiter_ok :
    extract_front_matter_and_content tomlFromStrModel [FRONT_MATTER_DELIMITER] =
      Except.ok (FrontMatter.empty, "") := by
  simp [extract_front_matter_and_content, processLines, tomlFromStrModel,
    String.intercalate, FRONT_MATTER_DELIMITER]

/-- Witness for C6: the amended theorem applied at a concrete file whose
closing delimiter is missing and whose remainder is not a valid front-matter
document in the deserializer model. -/
theorem extract_missing_closing_delimiter_witness :
    extract_front_matter_and_content tomlFromStrModel [FRONT_MATTER_DELIMITER, "x"] ≠
        Except.error ExtractError.malformedContent ∧
      extract_front_matter_and_content tomlFromStrModel [FRONT_MATTER_DELIMITER, "x"] =
        (match tomlFromStrModel (fmJoin (["x"])) with
         | none => Except.error ExtractError.invalidFrontMatter
         | some fm => Except.ok (fm, "")) :=
  extract_missing_closing_delimiter tomlFromStrModel (["x"]) (by simp [FRONT_MATTER_DELIMITER])

/-- The stem of a file name (`Path::file_stem` as used by
`default_slug_for_file`): the whole name when there is no embedded dot or when
the name begins with a dot and has no other dot, else the portion before the
final dot. -/
def file_stem (name : String) : String :=
  match name.splitOn (".") with
  | [] => name
  | [_] => name
  | p :: rest =>
    if p = "" ∧ rest.length = 1 then name
    else String.intercalate (".") ((p :: rest).dropLast)

/-- Determines the default slug for the provided file
(`site.rs`, `default_slug_for_file`). -/
def default_slug_for_file (fileName : String) : String :=
  file_stem fileName

/-- Parses a directory into a `BlogEntry` (`site.rs`, `parse_entry_dir`),
shallowly embedded: the filesystem interactions appear as arguments. `fm` is
the front matter extracted from the content file, `fsCreatedAt` the
filesystem creation time of the content file (the `created_at` fallback),
`sourceFile` and `htmlContentFile` the content file path and the written HTML
path, `associatedFiles` the result of the associated-file walk and `dirName`
the file name of the entry directory. -/
def parse_entry_dir (dirName : String) (fm : FrontMatter) (fsCreatedAt : Int)
    (sourceFile htmlContentFile : String)
    (associatedFiles : List AssociatedFile) : BlogEntry :=
  { metadata :=
      { source_file := sourceFile
        associated_files := associatedFiles
        html_content_file := htmlContentFile
        slug := fm.slug.getD (default_slug_for_file dirName)
        template_name := fm.template.getD DEFAULT_BLOG_ENTRY_TEMPLATE_NAME }
    title := fm.title.getD ""
    description := fm.description.getD ""
    tags := fm.tags.getD []
    created_at := fm.created_at.getD fsCreatedAt
    updated_at := fm.updated_at
    comments_enabled := fm.comments_enabled.getD DEFAULT_COMMENTS_ENABLED
    external_discussions := fm.external_discussions.getD [] }

/-- Build-time errors of `Site::from_dir`. `duplicateSlug` is the `bail!` for
a non-unique slug (carrying the offending directory path and the slug);
`entryError` stands for any error propagated from parsing one entry. -/
inductive BuildError where
  | duplicateSlug (path : String) (slug : String) : BuildError
  | entryError (msg : String) : BuildError
deriving DecidableEq

/-- One child of the blog entries source directory, as seen by the scan loop
of `Site::from_dir`: either a non-directory child (skipped), or an entry
directory together with the outcome `parse_entry_dir` has on it. -/
inductive DirChild where
  | nonDir : DirChild
  | entryDir (path : String) (result : Except String BlogEntry) : DirChild

/-- Whether a directory child parses without error. -/
def DirChild.parseOk : DirChild → Bool
  | DirChild.nonDir => true
  | DirChild.entryDir _ (Except.ok _) => true
  | DirChild.entryDir _ (Except.error _) => false

/-- The entries a scan of the children would produce, in directory-iteration
order, ignoring parse failures. -/
def entriesOf : List DirChild → List BlogEntry
  | [] => []
  | DirChild.nonDir :: rest => entriesOf rest
  | DirChild.entryDir _ (Except.error _) :: rest => entriesOf rest
  | DirChild.entryDir _ (Except.ok e) :: rest => e :: entriesOf rest

/-- The slugs of a list of entries. -/
def slugsOf (entries : List BlogEntry) : List String :=
  entries.map (fun e => e.metadata.slug)

/-- All slugs pairwise distinct (the `Site` invariant). -/
def slugDistinct (entries : List BlogEntry) : Prop :=
  entries.Pairwise (fun a b => a.metadata.slug ≠ b.metadata.slug)

/-- The accumulation loop of `Site::from_dir` (`site.rs` lines 88-115):
skips non-directories, propagates entry parse errors, rejects an entry whose
slug matches an already-accumulated one the moment it is encountered, and
otherwise pushes the entry. -/
def from_dir_loop : List BlogEntry → List DirChild → Except BuildError (List BlogEntry)
  | acc, [] => Except.ok acc
  | acc, DirChild.nonDir :: rest => from_dir_loop acc rest
  | acc, DirChild.entryDir path r :: rest =>
    match r with
    | Except.error msg => Except.error (BuildError.entryError msg)
    | Except.ok entry =>
      if acc.any (fun existing => entry.metadata.slug == existing.metadata.slug) then
        Except.error (BuildError.duplicateSlug path entry.metadata.slug)
      else from_dir_loop (acc ++ [entry]) rest

/-- The comparison `Site::from_dir` sorts with:
`a.created_at.cmp(b.created_at).reverse()` orders by `created_at`
descending, so `a` may stay before `b` exactly when
`b.created_at ≤ a.created_at`. -/
def blogEntryLe (a b : BlogEntry) : Bool :=
  decide (b.created_at ≤ a.created_at)

/-- Builds the site model from the children of the blog entries source
directory (`site.rs`, `Site::from_dir`): accumulate entries, then stably sort
by `created_at` descending. -/
def Site.from_dir (children : List DirChild) : Except BuildError Site :=
  match from_dir_loop [] children with
  | Except.error e => Except.error e
  | Except.ok entries => Except.ok { blog_entries := entries.mergeSort blogEntryLe }

/-- A successful scan loop returns the accumulator followed by the entries of
the children in scan order. -/
theorem from_dir_loop_ok_entries : ∀ (cs : List DirChild) (acc l : List BlogEntry),
    from_dir_loop acc cs = Except.ok l → l = acc ++ entriesOf cs := by
  intro cs
  induction cs with
  | nil => intro acc l h; simp [from_dir_loop] at h; simp [entriesOf, h.symm]
  | cons c rest ih =>
    intro acc l h
    match c with
    | DirChild.nonDir =>
      simpa [entriesOf] using ih acc l h
    | DirChild.entryDir path (Except.error msg) =>
      simp [from_dir_loop] at h
    | DirChild.entryDir path (Except.ok e) =>
      simp only [from_dir_loop] at h
      by_cases hc : (acc.any fun existing => e.metadata.slug == existing.metadata.slug) = true
      · rw [if_pos hc] at h; exact absurd h (by simp)
      · rw [if_neg hc] at h
        have := ih (acc ++ [e]) l h
        simpa [entriesOf] using this

/-- The scan loop preserves slug distinctness of the accumulator. -/
theorem from_dir_loop_ok_distinct : ∀ (cs : List DirChild) (acc l : List BlogEntry),
    from_dir_loop acc cs = Except.ok l → slugDistinct acc → slugDistinct l := by
  intro cs
  induction cs with
  | nil => intro acc l h hd; simp [from_dir_loop] at h; exact h ▸ hd
  | cons c rest ih =>
    intro acc l h hd
    match c with
    | DirChild.nonDir => exact ih acc l h hd
    | DirChild.entryDir path (Except.error msg) =>
      simp [from_dir_loop] at h
    | DirChild.entryDir path (Except.ok e) =>
      simp only [from_dir_loop] at h
      by_cases hc : (acc.any fun existing => e.metadata.slug == existing.metadata.slug) = true
      · rw [if_pos hc] at h; exact absurd h (by simp)
      · rw [if_neg hc] at h
        refine ih (acc ++ [e]) l h ?_
        rw [slugDistinct, List.pairwise_append]
        refine ⟨hd, List.pairwise_singleton _ _, ?_⟩
        intro a ha b hb
        simp only [List.mem_singleton] at hb
        subst hb
        simp only [List.any_eq_true, not_exists, not_and] at hc
        intro hab
        exact hc a ha (by simp [hab])

/-- Fail-fast duplicate detection: when the scan reaches an entry whose slug
already occurred (all earlier children parsing fine and being mutually
distinct), the loop stops with `duplicateSlug` for that entry. -/
theorem from_dir_loop_first_duplicate :
    ∀ (cs₁ : List DirChild) (acc : List BlogEntry) (p : String) (dup : BlogEntry)
      (cs₂ : List DirChild),
      (∀ c ∈ cs₁, c.parseOk = true) →
      slugDistinct (acc ++ entriesOf cs₁) →
      dup.metadata.slug ∈ slugsOf (acc ++ entriesOf cs₁) →
      from_dir_loop acc (cs₁ ++ DirChild.entryDir p (Except.ok dup) :: cs₂) =
        Except.error (BuildError.duplicateSlug p dup.metadata.slug) := by
  intro cs₁
  induction cs₁ with
  | nil =>
    intro acc p dup cs₂ _ hdist hmem
    simp only [entriesOf, List.append_nil] at hdist hmem
    simp only [List.nil_append, from_dir_loop]
    have hany : (acc.any fun existing =>
        dup.metadata.slug == existing.metadata.slug) = true := by
      simp only [slugsOf, List.mem_map] at hmem
      obtain ⟨e, he, hslug⟩ := hmem
      simp only [List.any_eq_true]
      exact ⟨e, he, by simp [hslug]⟩
    rw [if_pos hany]
  | cons c rest ih =>
    intro acc p dup cs₂ hok hdist hmem
    match c with
    | DirChild.nonDir =>
      simp only [List.cons_append, from_dir_loop]
      exact ih acc p dup cs₂ (fun x hx => hok x (List.mem_cons_of_mem _ hx))
        (by simpa [entriesOf] using hdist) (by simpa [entriesOf] using hmem)
    | DirChild.entryDir q (Except.error msg) =>
      exact absurd (hok _ (List.mem_cons_self _ _)) (by simp [DirChild.parseOk])
    | DirChild.entryDir q (Except.ok e) =>
      simp only [List.cons_append, from_dir_loop]
      have hdist' : slugDistinct (acc ++ e :: entriesOf rest) := by
        simpa [entriesOf] using hdist
      have hne : ∀ a ∈ acc, a.metadata.slug ≠ e.metadata.slug := by
        have hp := hdist'
        unfold slugDistinct at hp
        rw [List.pairwise_append] at hp
        intro a ha
        exact hp.2.2 a ha e (List.mem_cons_self _ _)
      have hc : (acc.any fun existing =>
          e.metadata.slug == existing.metadata.slug) = false := by
        simp only [List.any_eq_false]
        intro a ha
        simp only [beq_iff_eq]
        exact fun h => hne a ha h.symm
      rw [if_neg (by simp [hc])]
      have hassoc : (acc ++ [e]) ++ entriesOf rest = acc ++ e :: entriesOf rest := by
        simp
      refine ih (acc ++ [e]) p dup cs₂
        (fun x hx => hok x (List.mem_cons_of_mem _ hx)) ?_ ?_
      · unfold slugDistinct
        rw [hassoc]
        exact hdist'
      · rw [hassoc]
        simpa [entriesOf] using hmem

/-- C4: a content tree in which an entry repeats an already-seen slug makes
the whole build fail with the duplicate-slug error for the first entry (in
directory-iteration order) whose slug matches an earlier one, and no `Site`
is returned; conversely a successful build has pairwise distinct slugs. -/
theorem from_dir_duplicate_slug :
    (∀ (cs₁ : List DirChild) (p : String) (dup : BlogEntry) (cs₂ : List DirChild),
      (∀ c ∈ cs₁, c.parseOk = true) →
      slugDistinct (entriesOf cs₁) →
      dup.metadata.slug ∈ slugsOf (entriesOf cs₁) →
      Site.from_dir (cs₁ ++ DirChild.entryDir p (Except.ok dup) :: cs₂) =
        Except.error (BuildError.duplicateSlug p dup.metadata.slug))
    ∧ (∀ (children : List DirChild) (site : Site),
      Site.from_dir children = Except.ok site → slugDistinct site.blog_entries) := by
  constructor
  · intro cs₁ p dup cs₂ hok hdist hmem
    have h := from_dir_loop_first_duplicate cs₁ [] p dup cs₂ hok
      (by simpa using hdist) (by simpa using hmem)
    unfold Site.from_dir
    rw [h]
  · intro children site h
    unfold Site.from_dir at h
    cases hloop : from_dir_loop [] children with
    | error e => rw [hloop] at h; exact absurd h (by simp)
    | ok l =>
      rw [hloop] at h
      simp only [Except.ok.injEq] at h
      have hld : slugDistinct l :=
        from_dir_loop_ok_distinct children [] l hloop List.Pairwise.nil
      have hsymm : ∀ {x y : BlogEntry},
          x.metadata.slug ≠ y.metadata.slug → y.metadata.slug ≠ x.metadata.slug :=
        fun hxy => fun hyx => hxy hyx.symm
      have hperm := List.mergeSort_perm l blogEntryLe
      have := (hperm.pairwise_iff hsymm).mpr hld
      rw [← h]
      exact this

/-- A concrete blog entry used by witnesses. -/
def testEntry (slug : String) (t : Int) : BlogEntry :=
  { title := "", description := "",
    metadata := { source_file := "", associated_files := [],
                  html_content_file := "", slug := slug,
                  template_name := DEFAULT_BLOG_ENTRY_TEMPLATE_NAME },
    tags := [], created_at := t, updated_at := none,
    comments_enabled := DEFAULT_COMMENTS_ENABLED, external_discussions := [] }

/-- Witness for C4: a two-entry tree with a repeated slug fails with the
duplicate-slug error naming the second directory, and a successful singleton
build has distinct slugs. -/
theorem from_dir_duplicate_slug_witness :
    Site.from_dir [DirChild.entryDir ("d1") (Except.ok (testEntry ("a") 1)),
        DirChild.entryDir ("d2") (Except.ok (testEntry ("a") 2))] =
      Except.error (BuildError.duplicateSlug ("d2") ((testEntry ("a") 2)).metadata.slug) ∧
    slugDistinct (Site.mk ([testEntry ("b") 3])).blog_entries := by
  constructor
  · have h := from_dir_duplicate_slug.1
      [DirChild.entryDir ("d1") (Except.ok (testEntry ("a") 1))] ("d2")
      (testEntry ("a") 2) []
      (by intro c hc; simp only [List.mem_singleton] at hc; subst hc; rfl)
      (by unfold slugDistinct; simp [entriesOf])
      (by simp [entriesOf, slugsOf, testEntry])
    simpa using h
  · exact from_dir_duplicate_slug.2
      [DirChild.entryDir ("p") (Except.ok (testEntry ("b") 3))]
      (Site.mk ([testEntry ("b") 3]))
      (by simp [Site.from_dir, from_dir_loop])

/-- C5: a successfully built site has its entries sorted by `created_at`
descending, and the entries having any fixed `created_at` value appear in
exactly their scan order (the sort is stable). -/
theorem from_dir_sorted_stable (children : List DirChild) (site : Site)
    (h : Site.from_dir children = Except.ok site) :
    site.blog_entries.Pairwise (fun a b => b.created_at ≤ a.created_at) ∧
    ∀ t : Int, site.blog_entries.filter (fun e => e.created_at == t) =
      (entriesOf children).filter (fun e => e.created_at == t) := by
  have htrans : ∀ (a b c : BlogEntry),
      blogEntryLe a b → blogEntryLe b c → blogEntryLe a c := by
    intro a b c hab hbc
    simp only [blogEntryLe, decide_eq_true_eq] at hab hbc ⊢
    exact le_trans hbc hab
  have htotal : ∀ (a b : BlogEntry), blogEntryLe a b || blogEntryLe b a := by
    intro a b
    simp only [blogEntryLe, Bool.or_eq_true, decide_eq_true_eq]
    exact Int.le_total b.created_at a.created_at
  unfold Site.from_dir at h
  cases hloop : from_dir_loop [] children with
  | error e => rw [hloop] at h; exact absurd h (by simp)
  | ok l =>
    rw [hloop] at h
    simp only [Except.ok.injEq] at h
    have hl : l = entriesOf children := by
      simpa using from_dir_loop_ok_entries children [] l hloop
    subst h
    constructor
    · have hs := List.sorted_mergeSort htrans htotal l
      simp only []
      refine hs.imp ?_
      intro a b hab
      simpa [blogEntryLe, decide_eq_true_eq] using hab
    · intro t
      have hperm := List.mergeSort_perm l blogEntryLe
      set p : BlogEntry → Bool := fun e => e.created_at == t with hp
      have hcpair : (l.filter p).Pairwise (fun a b => blogEntryLe a b) := by
        refine List.pairwise_of_forall_mem_list ?_
        intro a ha b hb
        have ha2 := (List.mem_filter.mp ha).2
        have hb2 := (List.mem_filter.mp hb).2
        simp only [hp, beq_iff_eq] at ha2 hb2
        simp [blogEntryLe, ha2, hb2]
      have hsub : List.Sublist (l.filter p) (l.mergeSort blogEntryLe) :=
        List.sublist_mergeSort htrans htotal hcpair (List.filter_sublist l)
      have hsub2 : List.Sublist (l.filter p) ((l.mergeSort blogEntryLe).filter p) := by
        have hself : (l.filter p).filter p = l.filter p := by
          refine List.filter_eq_self.mpr ?_
          intro a ha
          exact (List.mem_filter.mp ha).2
        have := hsub.filter p
        rwa [hself] at this
      have hlen : ((l.mergeSort blogEntryLe).filter p).length = (l.filter p).length :=
        (hperm.filter p).length_eq
      have heq : l.filter p = (l.mergeSort blogEntryLe).filter p :=
        hsub2.eq_of_length hlen.symm
      simp only []
      rw [← heq, hl]

/-- Witness for C5: a concrete successful build. -/
theorem from_dir_sorted_stable_witness :
    (Site.mk ([testEntry ("a") 1])).blog_entries.Pairwise
        (fun a b => b.created_at ≤ a.created_at) ∧
    ∀ t : Int, (Site.mk ([testEntry ("a") 1])).blog_entries.filter
        (fun e => e.created_at == t) =
      (entriesOf [DirChild.entryDir ("p") (Except.ok (testEntry ("a") 1))]).filter
        (fun e => e.created_at == t) :=
  from_dir_sorted_stable [DirChild.entryDir ("p") (Except.ok (testEntry ("a") 1))]
    (Site.mk ([testEntry ("a") 1]))
    (by simp [Site.from_dir, from_dir_loop])

/-- C10: an entry built from front matter that omits `comments_enabled` has
comments enabled (the default is true). -/
theorem parse_entry_dir_comments_default (dirName : String) (fm : FrontMatter)
    (fsCreatedAt : Int) (sourceFile htmlContentFile : String)
    (associatedFiles : List AssociatedFile)
    (h : fm.comments_enabled = none) :
    (parse_entry_dir dirName fm fsCreatedAt sourceFile htmlContentFile
        associatedFiles).comments_enabled = true := by
  simp [parse_entry_dir, h, DEFAULT_COMMENTS_ENABLED]

/-- Witness for C10: the all-absent front matter yields an entry with comments
enabled. -/
theorem parse_entry_dir_comments_default_witness :
    (parse_entry_dir ("dir") FrontMatter.empty 0 ("src") ("html") []).comments_enabled =
      true :=
  parse_entry_dir_comments_default ("dir") FrontMatter.empty 0 ("src") ("html") [] rfl

/-- A stub representing a blog entry (`context.rs`, `BlogEntryStub`). -/
structure BlogEntryStub where
  title : String
  tags : List String
  url : String
  created_at : String
deriving DecidableEq

/-- Converts a `DateTime` into a human-readable string (`context.rs`,
`format_datetime`). The month/ordinal/year rendering is done by the external
chrono and ordinal crates; since no verified property depends on the rendered
text, the display is modelled as the timestamp numeral. -/
def format_datetime (t : Int) : String :=
  toString t

/-- Builds a `BlogEntryStub` that represents this `BlogEntry`
(`context.rs`, `BlogEntry::to_stub`). -/
def BlogEntry.to_stub (e : BlogEntry) : BlogEntryStub :=
  { title := e.title, tags := e.tags,
    url := "/blog/" ++ e.metadata.slug,
    created_at := format_datetime e.created_at }

/-- Fields common to all contexts (`context.rs`, `BaseContext`). -/
structure BaseContext where
  title : String
  meta_description : String
deriving DecidableEq

/-- Context for the blog index page (`context.rs`, `BlogIndexContext`). -/
structure BlogIndexContext where
  base : BaseContext
  entries : List BlogEntryStub
  previous_page : Option Nat
  next_page : Option Nat
deriving DecidableEq

/-- Previous/next page numbers (`context.rs`, `calculate_pages`). The
`NonZeroUsize` page number appears as a `Nat` constrained to be positive in
the theorems. -/
def calculate_pages (current_page start_index total_size page_size : Nat) :
    Option Nat × Option Nat :=
  let previous_page : Option Nat :=
    match current_page with
    | 1 => none
    | _ => some (current_page - 1)
  let next_page : Option Nat :=
    if total_size > start_index + page_size then some (current_page + 1) else none
  (previous_page, next_page)

/-- Builds the context for the blog index page (`context.rs`,
`Site::build_blog_index_context`). -/
def Site.build_blog_index_context (site : Site) (page : Nat) : BlogIndexContext :=
  let start_index := (page - 1) * PAGE_SIZE
  let entries :=
    ((site.blog_entries.drop start_index).take PAGE_SIZE).map BlogEntry.to_stub
  let pages := calculate_pages page start_index site.blog_entries.length PAGE_SIZE
  { base := { title := "The Rotoclone Zone Blog",
              meta_description := "It\x27s The Rotoclone Zone Blog" },
    entries := entries,
    previous_page := pages.1,
    next_page := pages.2 }

/-- For a positive page number, `calculate_pages` with the index page's start
index yields page minus one (or none on page one) and page plus one exactly
when the total exceeds page times page size. -/
theorem calculate_pages_spec (page total : Nat) (h : 1 ≤ page) :
    calculate_pages page ((page - 1) * PAGE_SIZE) total PAGE_SIZE =
      ((if 1 < page then some (page - 1) else none),
       (if page * PAGE_SIZE < total then some (page + 1) else none)) := by
  match page, h with
  | 1, _ => simp [calculate_pages]
  | (n + 2), _ =>
    unfold calculate_pages
    simp only [gt_iff_lt]
    have harith : (n + 2 - 1) * PAGE_SIZE + PAGE_SIZE = (n + 2) * PAGE_SIZE := by
      simp [PAGE_SIZE]; omega
    rw [harith]
    simp

/-- C3: for page size 10 and 1-based page P, the blog index context holds the
stubs of the entries at indices [(P-1)*10, (P-1)*10+10) of the sorted entries
(empty past the end, not an error); `previous_page` is P-1 exactly when P > 1
and `next_page` is P+1 exactly when the total exceeds P*10. -/
theorem build_blog_index_context_spec (site : Site) (page : Nat) (h : 1 ≤ page) :
    (site.build_blog_index_context page).entries =
      ((site.blog_entries.drop ((page - 1) * PAGE_SIZE)).take PAGE_SIZE).map
        BlogEntry.to_stub ∧
    (site.blog_entries.length ≤ (page - 1) * PAGE_SIZE →
      (site.build_blog_index_context page).entries = []) ∧
    (site.build_blog_index_context page).previous_page =
      (if 1 < page then some (page - 1) else none) ∧
    (site.build_blog_index_context page).next_page =
      (if page * PAGE_SIZE < site.blog_entries.length then some (page + 1) else none) := by
  have hp := calculate_pages_spec page site.blog_entries.length h
  refine ⟨rfl, ?_, ?_, ?_⟩
  · intro hlen
    have hdrop : site.blog_entries.drop ((page - 1) * PAGE_SIZE) = [] :=
      List.drop_eq_nil_of_le hlen
    show ((site.blog_entries.drop ((page - 1) * PAGE_SIZE)).take PAGE_SIZE).map
        BlogEntry.to_stub = []
    rw [hdrop]
    rfl
  · show (calculate_pages page ((page - 1) * PAGE_SIZE)
        site.blog_entries.length PAGE_SIZE).1 = _
    rw [hp]
  · show (calculate_pages page ((page - 1) * PAGE_SIZE)
        site.blog_entries.length PAGE_SIZE).2 = _
    rw [hp]

/-- Witness for C3: the index context spec at a concrete one-entry site and
page two. -/
theorem build_blog_index_context_spec_witness :
    ((Site.mk ([testEntry ("a") 1])).build_blog_index_context 2).entries =
      (((Site.mk ([testEntry ("a") 1])).blog_entries.drop ((2 - 1) * PAGE_SIZE)).take
        PAGE_SIZE).map BlogEntry.to_stub ∧
    ((Site.mk ([testEntry ("a") 1])).blog_entries.length ≤ (2 - 1) * PAGE_SIZE →
      ((Site.mk ([testEntry ("a") 1])).build_blog_index_context 2).entries = []) ∧
    ((Site.mk ([testEntry ("a") 1])).build_blog_index_context 2).previous_page =
      (if 1 < 2 then some (2 - 1) else none) ∧
    ((Site.mk ([testEntry ("a") 1])).build_blog_index_context 2).next_page =
      (if 2 * PAGE_SIZE < (Site.mk ([testEntry ("a") 1])).blog_entries.length then
        some (2 + 1) else none) :=
  build_blog_index_context_spec (Site.mk ([testEntry ("a") 1])) 2 (by omega)

/-- Context for a blog tag page (`context.rs`, `BlogTagContext`). -/
structure BlogTagContext where
  base : BaseContext
  tag : String
  entries : List BlogEntryStub
  previous_page : Option Nat
  next_page : Option Nat
deriving DecidableEq

/-- The entries carrying a tag, in site order (the `all_matching_entries`
local of `Site::build_blog_tag_context`). -/
def all_matching_entries (site : Site) (tag : String) : List BlogEntry :=
  site.blog_entries.filter (fun entry => entry.tags.contains tag)

/-- Builds the context for a blog tag page (`context.rs`,
`Site::build_blog_tag_context`); `none` when no entry carries the tag. -/
def Site.build_blog_tag_context (site : Site) (tag : String) (page : Nat) :
    Option BlogTagContext :=
  let start_index := (page - 1) * PAGE_SIZE
  let matching := all_matching_entries site tag
  if matching.isEmpty then none
  else
    let total_matching_entries := matching.length
    let entries := ((matching.drop start_index).take PAGE_SIZE).map BlogEntry.to_stub
    let pages := calculate_pages page start_index total_matching_entries PAGE_SIZE
    some { base := { title := "The Rotoclone Zone Blog - Posts Tagged " ++ tag,
                     meta_description := "All the posts tagged " ++ tag },
           tag := tag,
           entries := entries,
           previous_page := pages.1,
           next_page := pages.2 }

/-- C8: a tag carried by no entry yields absence; a tag carried by at least
one entry yields a present context whose entries are the stubs of the page
slice of the matching subset (empty when the page is past the end) and whose
paging is computed over the matching count alone. -/
theorem build_blog_tag_context_spec (site : Site) (tag : String) (page : Nat)
    (h : 1 ≤ page) :
    (all_matching_entries site tag = [] →
      site.build_blog_tag_context tag page = none) ∧
    (all_matching_entries site tag ≠ [] →
      site.build_blog_tag_context tag page = some
        { base := { title := "The Rotoclone Zone Blog - Posts Tagged " ++ tag,
                    meta_description := "All the posts tagged " ++ tag },
          tag := tag,
          entries := (((all_matching_entries site tag).drop
            ((page - 1) * PAGE_SIZE)).take PAGE_SIZE).map BlogEntry.to_stub,
          previous_page := if 1 < page then some (page - 1) else none,
          next_page := if page * PAGE_SIZE < (all_matching_entries site tag).length
            then some (page + 1) else none }) ∧
    (all_matching_entries site tag ≠ [] →
      (all_matching_entries site tag).length ≤ (page - 1) * PAGE_SIZE →
      ∃ ctx, site.build_blog_tag_context tag page = some ctx ∧ ctx.entries = []) := by
  have hpages := calculate_pages_spec page (all_matching_entries site tag).length h
  have hfull : all_matching_entries site tag ≠ [] →
      site.build_blog_tag_context tag page = some
        { base := { title := "The Rotoclone Zone Blog - Posts Tagged " ++ tag,
                    meta_description := "All the posts tagged " ++ tag },
          tag := tag,
          entries := (((all_matching_entries site tag).drop
            ((page - 1) * PAGE_SIZE)).take PAGE_SIZE).map BlogEntry.to_stub,
          previous_page := if 1 < page then some (page - 1) else none,
          next_page := if page * PAGE_SIZE < (all_matching_entries site tag).length
            then some (page + 1) else none } := by
    intro hne
    unfold Site.build_blog_tag_context
    rw [if_neg (by simp [hne])]
    simp only [hpages]
  refine ⟨?_, hfull, ?_⟩
  · intro hempty
    unfold Site.build_blog_tag_context
    rw [if_pos (by simp [hempty])]
  · intro hne hlen
    refine ⟨_, hfull hne, ?_⟩
    show (((all_matching_entries site tag).drop ((page - 1) * PAGE_SIZE)).take
      PAGE_SIZE).map BlogEntry.to_stub = []
    rw [List.drop_eq_nil_of_le hlen]
    rfl

/-- A concrete blog entry carrying one tag, used by witnesses. -/
def testTaggedEntry (slug : String) (tag : String) (t : Int) : BlogEntry :=
  { title := "", description := "",
    metadata := { source_file := "", associated_files := [],
                  html_content_file := "", slug := slug,
                  template_name := DEFAULT_BLOG_ENTRY_TEMPLATE_NAME },
    tags := [tag], created_at := t, updated_at := none,
    comments_enabled := DEFAULT_COMMENTS_ENABLED, external_discussions := [] }

/-- Witness for C8, at a site whose single entry carries the tag: the unknown
tag yields absence; the carried tag at page two — past the end of the
one-element matching subset — yields a present context whose paging is
computed over the matching count, with an empty entries slice. -/
theorem build_blog_tag_context_spec_witness :
    (Site.mk ([testTaggedEntry ("a") ("t") 1])).build_blog_tag_context ("u") 1 =
      none ∧
    (Site.mk ([testTaggedEntry ("a") ("t") 1])).build_blog_tag_context ("t") 2 = some
      { base := { title := "The Rotoclone Zone Blog - Posts Tagged " ++ ("t"),
                  meta_description := "All the posts tagged " ++ ("t") },
        tag := ("t"),
        entries := (((all_matching_entries (Site.mk ([testTaggedEntry ("a") ("t") 1]))
          ("t")).drop ((2 - 1) * PAGE_SIZE)).take PAGE_SIZE).map BlogEntry.to_stub,
        previous_page := if 1 < 2 then some (2 - 1) else none,
        next_page := if 2 * PAGE_SIZE <
            (all_matching_entries (Site.mk ([testTaggedEntry ("a") ("t") 1]))
              ("t")).length
          then some (2 + 1) else none } ∧
    ∃ ctx, (Site.mk ([testTaggedEntry ("a") ("t") 1])).build_blog_tag_context ("t") 2 =
      some ctx ∧ ctx.entries = [] :=
  ⟨(build_blog_tag_context_spec (Site.mk ([testTaggedEntry ("a") ("t") 1])) ("u") 1
      (by omega)).1 (by decide),
   (build_blog_tag_context_spec (Site.mk ([testTaggedEntry ("a") ("t") 1])) ("t") 2
      (by omega)).2.1 (by decide),
   (build_blog_tag_context_spec (Site.mk ([testTaggedEntry ("a") ("t") 1])) ("t") 2
      (by omega)).2.2 (by decide) (by decide)⟩

/-- Context for a blog entry page (`context.rs`, `BlogEntryContext`). -/
structure BlogEntryContext where
  base : BaseContext
  tags : List String
  created_at : String
  updated_at : Option String
  entry_content : String
  previous_entry : Option BlogEntryStub
  next_entry : Option BlogEntryStub
deriving DecidableEq

/-- Builds stubs for the entries positioned immediately before and after the
provided entry in the list (`context.rs`, `stubs_for_surrounding_entries`):
the position is found by structural equality, and the pair returned is
(previous-in-list, next-in-list). -/
def stubs_for_surrounding_entries (entries : List BlogEntry) (entry : BlogEntry) :
    Option BlogEntryStub × Option BlogEntryStub :=
  match entries.findIdx? (fun x => x == entry) with
  | none => (none, none)
  | some index =>
    let previous := if index = 0 then none
      else (entries[index - 1]?).map BlogEntry.to_stub
    let next := if index = entries.length - 1 then none
      else (entries[index + 1]?).map BlogEntry.to_stub
    (previous, next)

/-- Builds the context for a blog entry page (`context.rs`,
`Site::build_blog_entry_context`). Reading the materialized HTML appears as
the parameter `read_to_string` (`none` on an I/O error, which the source
propagates as `Err`). As in the source, the pair returned by
`stubs_for_surrounding_entries` is destructured as (next_entry,
previous_entry): the entry before in the descending list is the
chronologically next entry. -/
def Site.build_blog_entry_context (site : Site) (read_to_string : String → Option String)
    (entry : BlogEntry) : Option BlogEntryContext :=
  let stubs := stubs_for_surrounding_entries site.blog_entries entry
  match read_to_string entry.metadata.html_content_file with
  | none => none
  | some content =>
    some { base := { title := entry.title, meta_description := entry.title },
           tags := entry.tags,
           created_at := format_datetime entry.created_at,
           updated_at := entry.updated_at.map format_datetime,
           entry_content := content,
           previous_entry := stubs.2,
           next_entry := stubs.1 }

/-- In a list with pairwise distinct slugs, the structural-equality search
finds exactly the position the entry sits at. -/
theorem findIdx_eq_of_slugDistinct :
    ∀ (l : List BlogEntry) (i s : Nat) (entry : BlogEntry), slugDistinct l →
      l[i]? = some entry → l.findIdx? (fun x => x == entry) s = some (s + i) := by
  intro l
  induction l with
  | nil => intro i s entry _ hi; simp at hi
  | cons a t ih =>
    intro i s entry hd hi
    match i with
    | 0 =>
      simp only [List.getElem?_cons_zero, Option.some.injEq] at hi
      subst hi
      simp [List.findIdx?_cons]
    | (n + 1) =>
      simp only [List.getElem?_cons_succ] at hi
      have hmem : entry ∈ t := List.getElem?_mem hi
      have hslug : a.metadata.slug ≠ entry.metadata.slug := by
        have hp := List.pairwise_cons.mp hd
        exact hp.1 entry hmem
      have hne : (a == entry) = false := by
        simp only [beq_eq_false_iff_ne, ne_eq]
        intro hcontra
        exact hslug (by rw [hcontra])
      have ht := ih n (s + 1) entry (List.pairwise_cons.mp hd).2 hi
      simp only [List.findIdx?_cons, hne, Bool.false_eq_true, if_false]
      rw [ht]
      congr 1
      omega

/-- C9: in a site whose entries have pairwise distinct slugs (the Site
invariant), the context built for the entry at position i of the
descending-sorted entries has as next entry (chronologically newer) the stub
of the entry at position i-1 (none at i = 0) and as previous entry
(chronologically older) the stub of the entry at position i+1 (none at the
last position). -/
theorem build_blog_entry_context_neighbors (site : Site)
    (rd : String → Option String) (entry : BlogEntry) (i : Nat) (content : String)
    (hd : slugDistinct site.blog_entries)
    (hi : site.blog_entries[i]? = some entry)
    (hr : rd entry.metadata.html_content_file = some content) :
    site.build_blog_entry_context rd entry = some
      { base := { title := entry.title, meta_description := entry.title },
        tags := entry.tags,
        created_at := format_datetime entry.created_at,
        updated_at := entry.updated_at.map format_datetime,
        entry_content := content,
        previous_entry := if i = site.blog_entries.length - 1 then none
          else (site.blog_entries[i + 1]?).map BlogEntry.to_stub,
        next_entry := if i = 0 then none
          else (site.blog_entries[i - 1]?).map BlogEntry.to_stub } := by
  have hfind : site.blog_entries.findIdx? (fun x => x == entry) 0 = some i := by
    have := findIdx_eq_of_slugDistinct site.blog_entries i 0 entry hd hi
    simpa using this
  unfold Site.build_blog_entry_context
  rw [hr]
  unfold stubs_for_surrounding_entries
  rw [hfind]

/-- Witness for C9: a two-entry site, looking at the entry in position one. -/
theorem build_blog_entry_context_neighbors_witness :
    (Site.mk ([testEntry ("a") 5, testEntry ("b") 3])).build_blog_entry_context
        (fun _ => some ("html")) (testEntry ("b") 3) = some
      { base := { title := (testEntry ("b") 3).title,
                  meta_description := (testEntry ("b") 3).title },
        tags := (testEntry ("b") 3).tags,
        created_at := format_datetime (testEntry ("b") 3).created_at,
        updated_at := (testEntry ("b") 3).updated_at.map format_datetime,
        entry_content := ("html"),
        previous_entry := if 1 = (Site.mk ([testEntry ("a") 5,
            testEntry ("b") 3])).blog_entries.length - 1 then none
          else ((Site.mk ([testEntry ("a") 5,
            testEntry ("b") 3])).blog_entries[1 + 1]?).map BlogEntry.to_stub,
        next_entry := if 1 = 0 then none
          else ((Site.mk ([testEntry ("a") 5,
            testEntry ("b") 3])).blog_entries[1 - 1]?).map BlogEntry.to_stub } :=
  build_blog_entry_context_neighbors (Site.mk ([testEntry ("a") 5, testEntry ("b") 3]))
    (fun _ => some ("html")) (testEntry ("b") 3) 1 ("html")
    (by unfold slugDistinct; simp [testEntry]) rfl rfl

/-- Filesystem change notifications (the `hotwatch::Event` variants matched in
`updating_site.rs`). -/
inductive Event where
  | noticeWrite (path : String) : Event
  | noticeRemove (path : String) : Event
  | create (path : String) : Event
  | write (path : String) : Event
  | chmod (path : String) : Event
  | remove (path : String) : Event
  | rename (from_path to_path : String) : Event
  | rescan : Event
  | error (msg : String) (path : Option String) : Event

/-- The events the watcher callback discards without rebuilding
(`updating_site.rs` line 39: `NoticeRemove`, `NoticeWrite` and `Error`). -/
def isFilteredEvent : Event → Bool
  | Event.noticeRemove _ => true
  | Event.noticeWrite _ => true
  | Event.error _ _ => true
  | _ => false

/-- The watcher callback of `UpdatingSite::from_dir` (`updating_site.rs` lines
37-51), as a function from the held site, the event and the content tree at
callback time to the site held afterwards. Filtered events return early;
otherwise the site is rebuilt and only a successful build replaces the held
site — a build error is logged and the old site kept. The return type `Site`
(rather than an `Except`) reflects that the closure returns unit and never
propagates the build failure. -/
def watch_callback (current : Site) (event : Event) (children : List DirChild) : Site :=
  match event with
  | Event.noticeRemove _ => current
  | Event.noticeWrite _ => current
  | Event.error _ _ => current
  | _ =>
    match Site.from_dir children with
    | Except.ok site => site
    | Except.error _ => current

/-- C1: if the rebuild fails, the held site is unchanged and the failure does
not escape the callback (the callback still returns a site); a successful
rebuild on an unfiltered event installs the new site; and in every case the
result is either the old site or a successfully built one. -/
theorem watch_callback_spec (current : Site) (event : Event)
    (children : List DirChild) :
    (∀ e, Site.from_dir children = Except.error e →
      watch_callback current event children = current) ∧
    (∀ s, Site.from_dir children = Except.ok s → isFilteredEvent event = false →
      watch_callback current event children = s) ∧
    (watch_callback current event children = current ∨
      ∃ s, Site.from_dir children = Except.ok s ∧
        watch_callback current event children = s) := by
  refine ⟨?_, ?_, ?_⟩
  · intro e he
    cases event <;> simp [watch_callback, he]
  · intro s hs hf
    cases event <;> (try simp [isFilteredEvent] at hf) <;> simp [watch_callback, hs]
  · cases hfd : Site.from_dir children with
    | error e =>
      left
      cases event <;> simp [watch_callback, hfd]
    | ok s =>
      cases event <;>
        first
        | exact Or.inl rfl
        | exact Or.inr ⟨s, rfl, by simp [watch_callback, hfd]⟩

/-- Witness for C1: a failing rebuild leaves the held site unchanged; a
successful rebuild on a write event installs the new site. -/
theorem watch_callback_spec_witness :
    watch_callback (Site.mk []) (Event.write ("f"))
        [DirChild.entryDir ("p") (Except.error ("boom"))] = Site.mk [] ∧
    watch_callback (Site.mk []) (Event.write ("f"))
        [DirChild.entryDir ("p") (Except.ok (testEntry ("a") 1))] =
      Site.mk ([testEntry ("a") 1]) :=
  ⟨(watch_callback_spec (Site.mk []) (Event.write ("f"))
      [DirChild.entryDir ("p") (Except.error ("boom"))]).1
      (BuildError.entryError ("boom")) (by simp [Site.from_dir, from_dir_loop]),
   (watch_callback_spec (Site.mk []) (Event.write ("f"))
      [DirChild.entryDir ("p") (Except.ok (testEntry ("a") 1))]).2.1
      (Site.mk ([testEntry ("a") 1])) (by simp [Site.from_dir, from_dir_loop]) rfl⟩

/-- Phase of one reader task. -/
inductive ReaderPhase where
  | idle : ReaderPhase
  | holding : ReaderPhase
  | released : ReaderPhase
deriving DecidableEq

/-- One reader task of the serving layer (a request handler in `main.rs`
calling `updating_site.site.read()` and walking the entries list through the
guard). `snap` and `snapVersion` are ghost fields recording the shared cell's
value and version at the moment the read guard was acquired; `k` counts the
entries observed so far and `obs` collects what was actually read from the
shared cell. -/
structure Reader where
  phase : ReaderPhase
  snap : Site
  snapVersion : Nat
  k : Nat
  obs : List BlogEntry

/-- The live site model (`updating_site.rs`, `Arc<RwLock<UpdatingSite>>`)
together with its readers and the single watcher-callback writer. `site` is
the protected `site` field, `version` a ghost count of completed
replacements, `writerHolds` whether the write guard is held, and `pending`
the privately built site the callback is about to assign. -/
structure LiveState where
  site : Site
  version : Nat
  writerHolds : Bool
  pending : Option Site
  readers : List Reader

/-- Replaces reader `i` (helper for the step relation). -/
def LiveState.setReader (s : LiveState) (i : Nat) (r : Reader) : LiveState :=
  { s with readers := s.readers.set i r }

/-- The state of a reader just after acquiring the read guard: it snapshots
the current cell value (ghost) and has observed nothing yet. -/
def acquiredReader (s : LiveState) : Reader :=
  { phase := ReaderPhase.holding, snap := s.site, snapVersion := s.version,
    k := 0, obs := [] }

/-- The interleaving semantics of `updating_site.rs` under the `RwLock`
contract (many readers or one writer). A reader acquires the read guard only
while no writer holds the lock, then observes entries one at a time from the
shared cell, then releases. The watcher callback builds a new site with
`Site::from_dir` outside any lock (`wBuild`), then takes the write guard —
only when no reader holds it — for the single assignment
`...write().unwrap().site = site` (`wAcquire`, `wAssign`, `wRelease`). -/
inductive LiveStep : LiveState → LiveState → Prop where
  | rAcquire (s : LiveState) (i : Nat) (r : Reader)
      (hr : s.readers[i]? = some r) (hphase : r.phase = ReaderPhase.idle)
      (hw : s.writerHolds = false) :
      LiveStep s (s.setReader i (acquiredReader s))
  | rObserve (s : LiveState) (i : Nat) (r : Reader) (e : BlogEntry)
      (hr : s.readers[i]? = some r) (hphase : r.phase = ReaderPhase.holding)
      (he : s.site.blog_entries[r.k]? = some e) :
      LiveStep s (s.setReader i { r with k := r.k + 1, obs := r.obs ++ [e] })
  | rRelease (s : LiveState) (i : Nat) (r : Reader)
      (hr : s.readers[i]? = some r) (hphase : r.phase = ReaderPhase.holding) :
      LiveStep s (s.setReader i { r with phase := ReaderPhase.released })
  | wBuild (s : LiveState) (children : List DirChild) (newSite : Site)
      (hbuild : Site.from_dir children = Except.ok newSite)
      (hpending : s.pending = none) (hw : s.writerHolds = false) :
      LiveStep s { s with pending := some newSite }
  | wAcquire (s : LiveState) (newSite : Site)
      (hpending : s.pending = some newSite) (hw : s.writerHolds = false)
      (hnoreaders : ∀ r ∈ s.readers, r.phase ≠ ReaderPhase.holding) :
      LiveStep s { s with writerHolds := true }
  | wAssign (s : LiveState) (newSite : Site)
      (hw : s.writerHolds = true) (hpending : s.pending = some newSite) :
      LiveStep s { s with site := newSite, version := s.version + 1, pending := none }
  | wRelease (s : LiveState) (hw : s.writerHolds = true) (hpending : s.pending = none) :
      LiveStep s { s with writerHolds := false }

/-- Reachability under the interleaving semantics. -/
def LiveReach : LiveState → LiveState → Prop :=
  Relation.ReflTransGen LiveStep

/-- Consistency of one reader: while it holds the read guard the shared cell
still contains exactly its acquisition snapshot, and everything it has
observed (also after release) is an initial segment of that single
snapshot's entries — never a mixture of two snapshots. -/
def readerConsistent (s : LiveState) (r : Reader) : Prop :=
  (r.phase = ReaderPhase.holding →
    s.site = r.snap ∧ s.version = r.snapVersion) ∧
  (r.phase = ReaderPhase.holding ∨ r.phase = ReaderPhase.released →
    r.obs = r.snap.blog_entries.take r.k) ∧
  r.snapVersion ≤ s.version

/-- The `RwLock` mutual-exclusion invariant together with per-reader
consistency. -/
def LiveInv (s : LiveState) : Prop :=
  (s.writerHolds = true → ∀ r ∈ s.readers, r.phase ≠ ReaderPhase.holding) ∧
  ∀ r ∈ s.readers, readerConsistent s r

/-- An initial state: some fixed first site, version zero, lock free, and any
number of readers none of which has started. -/
def LiveInit (site0 : Site) (s : LiveState) : Prop :=
  s.site = site0 ∧ s.version = 0 ∧ s.writerHolds = false ∧ s.pending = none ∧
  ∀ r ∈ s.readers, r.phase = ReaderPhase.idle ∧ r.snapVersion = 0

/-- Each step can only grow the version counter. -/
theorem LiveStep_version_mono {s t : LiveState} (h : LiveStep s t) :
    s.version ≤ t.version := by
  cases h <;> simp [LiveState.setReader]

/-- One step preserves the lock and consistency invariant. -/
theorem LiveStep_preserves_inv {s t : LiveState} (hstep : LiveStep s t)
    (hinv : LiveInv s) : LiveInv t := by
  obtain ⟨hmx, hrc⟩ := hinv
  cases hstep with
  | rAcquire i r hr hphase hw =>
    constructor
    · intro habs
      simp only [LiveState.setReader] at habs
      exact absurd habs (by simp [hw])
    · intro r' hr'
      simp only [LiveState.setReader] at hr'
      rcases List.mem_or_eq_of_mem_set hr' with hmem | heq
      · exact hrc r' hmem
      · subst heq
        exact ⟨fun _ => ⟨rfl, rfl⟩, fun _ => rfl, le_refl _⟩
  | rObserve i r e hr hphase he =>
    have hrmem : r ∈ s.readers := List.getElem?_mem hr
    have rc := hrc r hrmem
    constructor
    · intro habs
      exact absurd hphase (hmx habs r hrmem)
    · intro r' hr'
      simp only [LiveState.setReader] at hr'
      rcases List.mem_or_eq_of_mem_set hr' with hmem | heq
      · exact hrc r' hmem
      · subst heq
        have hsite : s.site = r.snap := (rc.1 hphase).1
        have hver : s.version = r.snapVersion := (rc.1 hphase).2
        have hobs : r.obs = r.snap.blog_entries.take r.k := rc.2.1 (Or.inl hphase)
        refine ⟨fun _ => ⟨hsite, hver⟩, fun _ => ?_, rc.2.2⟩
        show r.obs ++ [e] = r.snap.blog_entries.take (r.k + 1)
        rw [List.take_succ, ← hobs]
        rw [hsite] at he
        rw [he]
        rfl
  | rRelease i r hr hphase =>
    have hrmem : r ∈ s.readers := List.getElem?_mem hr
    have rc := hrc r hrmem
    constructor
    · intro habs
      exact absurd hphase (hmx habs r hrmem)
    · intro r' hr'
      simp only [LiveState.setReader] at hr'
      rcases List.mem_or_eq_of_mem_set hr' with hmem | heq
      · exact hrc r' hmem
      · subst heq
        refine ⟨fun habs => ?_, fun _ => rc.2.1 (Or.inl hphase), rc.2.2⟩
        exact absurd habs (by simp)
  | wBuild children newSite hbuild hpending hw =>
    exact ⟨hmx, hrc⟩
  | wAcquire newSite hpending hw hnoreaders =>
    exact ⟨fun _ => hnoreaders, hrc⟩
  | wAssign newSite hw hpending =>
    constructor
    · intro _
      exact hmx hw
    · intro r' hr'
      have rc := hrc r' hr'
      refine ⟨fun habs => absurd habs (hmx hw r' hr'), rc.2.1, ?_⟩
      exact le_trans rc.2.2 (Nat.le_succ _)
  | wRelease hw hpending =>
    constructor
    · intro habs
      exact absurd habs (by simp)
    · exact hrc

/-- The invariant holds at every state reachable from an invariant state. -/
theorem LiveReach_inv {s t : LiveState} (hreach : LiveReach s t)
    (hinv : LiveInv s) : LiveInv t := by
  induction hreach with
  | refl => exact hinv
  | tail hab hbc ih => exact LiveStep_preserves_inv hbc ih

/-- The version counter never decreases along a run. -/
theorem LiveReach_version_mono {s t : LiveState} (hreach : LiveReach s t) :
    s.version ≤ t.version := by
  induction hreach with
  | refl => exact le_refl _
  | tail hab hbc ih => exact le_trans ih (LiveStep_version_mono hbc)

/-- An initial state satisfies the invariant. -/
theorem LiveInit_inv {site0 : Site} {s : LiveState} (h : LiveInit site0 s) :
    LiveInv s := by
  obtain ⟨_, _, hw, _, hreaders⟩ := h
  constructor
  · intro habs
    rw [hw] at habs
    exact absurd habs (by simp)
  · intro r hr
    obtain ⟨hidle, hver⟩ := hreaders r hr
    refine ⟨fun habs => ?_, fun habs => ?_, ?_⟩
    · rw [hidle] at habs; exact absurd habs (by simp)
    · rcases habs with habs | habs <;> rw [hidle] at habs <;>
        exact absurd habs (by simp)
    · rw [hver]; exact Nat.zero_le _
  
/-- A step never changes a reader that has already acquired, other than
growing its observations; in particular its snapshot version is stable. -/
theorem LiveStep_reader_stable {s t : LiveState} (h : LiveStep s t) (i : Nat)
    (r : Reader) (hr : s.readers[i]? = some r) (hp : r.phase ≠ ReaderPhase.idle) :
    ∃ r', t.readers[i]? = some r' ∧ r'.phase ≠ ReaderPhase.idle ∧
      r'.snapVersion = r.snapVersion := by
  cases h with
  | rAcquire j rj hrj hphase hw =>
    by_cases hij : j = i
    · subst hij
      rw [hr] at hrj
      have hrjr : rj = r := (Option.some.inj hrj).symm
      subst hrjr
      exact absurd hphase hp
    · refine ⟨r, ?_, hp, rfl⟩
      simp only [LiveState.setReader]
      rw [List.getElem?_set_ne hij]
      exact hr
  | rObserve j rj e hrj hphase he =>
    by_cases hij : j = i
    · subst hij
      rw [hr] at hrj
      have hrjr : rj = r := (Option.some.inj hrj).symm
      subst hrjr
      have hlen : j < s.readers.length := by
        rcases List.getElem?_eq_some.mp hr with ⟨hlt, _⟩
        exact hlt
      refine ⟨{ rj with k := rj.k + 1, obs := rj.obs ++ [e] }, ?_, ?_, rfl⟩
      · simp only [LiveState.setReader]
        rw [List.getElem?_set_self (by simpa using hlen)]
      · simpa using hp
    · refine ⟨r, ?_, hp, rfl⟩
      simp only [LiveState.setReader]
      rw [List.getElem?_set_ne hij]
      exact hr
  | rRelease j rj hrj hphase =>
    by_cases hij : j = i
    · subst hij
      rw [hr] at hrj
      have hrjr : rj = r := (Option.some.inj hrj).symm
      subst hrjr
      have hlen : j < s.readers.length := by
        rcases List.getElem?_eq_some.mp hr with ⟨hlt, _⟩
        exact hlt
      refine ⟨{ rj with phase := ReaderPhase.released }, ?_, ?_, rfl⟩
      · simp only [LiveState.setReader]
        rw [List.getElem?_set_self (by simpa using hlen)]
      · simp
    · refine ⟨r, ?_, hp, rfl⟩
      simp only [LiveState.setReader]
      rw [List.getElem?_set_ne hij]
      exact hr
  | wBuild children newSite hbuild hpending hw => exact ⟨r, hr, hp, rfl⟩
  | wAcquire newSite hpending hw hnoreaders => exact ⟨r, hr, hp, rfl⟩
  | wAssign newSite hw hpending => exact ⟨r, hr, hp, rfl⟩
  | wRelease hw hpending => exact ⟨r, hr, hp, rfl⟩

/-- Along a run, a reader that has already acquired keeps its snapshot
version. -/
theorem LiveReach_reader_stable {s t : LiveState} (h : LiveReach s t) :
    ∀ (i : Nat) (r : Reader), s.readers[i]? = some r →
      r.phase ≠ ReaderPhase.idle →
      ∃ r', t.readers[i]? = some r' ∧ r'.phase ≠ ReaderPhase.idle ∧
        r'.snapVersion = r.snapVersion := by
  induction h with
  | refl => intro i r hr hp; exact ⟨r, hr, hp, rfl⟩
  | tail hab hbc ih =>
    intro i r hr hp
    obtain ⟨r', hr', hp', hv'⟩ := ih i r hr hp
    obtain ⟨r'', hr'', hp'', hv''⟩ := LiveStep_reader_stable hbc i r' hr' hp'
    exact ⟨r'', hr'', hp'', hv''.trans hv'⟩

/-- Monotonic visibility: a read that has not begun at some state and has
acquired by a later state snapshots a version at least as new as the earlier
state's. -/
theorem LiveReach_read_after {s t : LiveState} (h : LiveReach s t) :
    ∀ (i : Nat) (r r' : Reader), s.readers[i]? = some r →
      r.phase = ReaderPhase.idle → t.readers[i]? = some r' →
      r'.phase ≠ ReaderPhase.idle → s.version ≤ r'.snapVersion := by
  induction h using Relation.ReflTransGen.head_induction_on with
  | refl =>
    intro i r r' hr hp hr' hp'
    rw [hr] at hr'
    have : r = r' := Option.some.inj hr'
    subst this
    exact absurd hp hp'
  | @head a b hstep hreach ih =>
    intro i r r' hr hp hr' hp'
    have hmono : a.version ≤ b.version := LiveStep_version_mono hstep
    cases hstep with
    | rAcquire j rj hrj hphase hw =>
      by_cases hij : j = i
      · subst hij
        have hb : (a.setReader j (acquiredReader a)).readers[j]? =
            some (acquiredReader a) := by
          have hlen : j < a.readers.length := by
            rcases List.getElem?_eq_some.mp hr with ⟨hlt, _⟩
            exact hlt
          simp only [LiveState.setReader]
          rw [List.getElem?_set_self (by simpa using hlen)]
        obtain ⟨r'', hr'', hp'', hv''⟩ :=
          LiveReach_reader_stable hreach j _ hb (by simp [acquiredReader])
        rw [hr'] at hr''
        have hrr : r'' = r' := Option.some.inj hr''.symm
        subst hrr
        rw [hv'']
        exact le_refl _
      · refine le_trans (le_refl _) (ih i r r' ?_ hp hr' hp')
        simp only [LiveState.setReader]
        rw [List.getElem?_set_ne hij]
        exact hr
    | rObserve j rj e hrj hphase he =>
      by_cases hij : j = i
      · subst hij
        rw [hr] at hrj
        have hrjr : rj = r := (Option.some.inj hrj).symm
        subst hrjr
        rw [hp] at hphase
        exact absurd hphase (by simp)
      · refine ih i r r' ?_ hp hr' hp'
        simp only [LiveState.setReader]
        rw [List.getElem?_set_ne hij]
        exact hr
    | rRelease j rj hrj hphase =>
      by_cases hij : j = i
      · subst hij
        rw [hr] at hrj
        have hrjr : rj = r := (Option.some.inj hrj).symm
        subst hrjr
        rw [hp] at hphase
        exact absurd hphase (by simp)
      · refine ih i r r' ?_ hp hr' hp'
        simp only [LiveState.setReader]
        rw [List.getElem?_set_ne hij]
        exact hr
    | wBuild children newSite hbuild hpending hw => exact ih i r r' hr hp hr' hp'
    | wAcquire newSite hpending hw hnoreaders => exact ih i r r' hr hp hr' hp'
    | wAssign newSite hw hpending =>
      exact le_trans hmono (ih i r r' hr hp hr' hp')
    | wRelease hw hpending => exact ih i r r' hr hp hr' hp'

/-- C2: under the `RwLock` discipline, every reachable state keeps every
reader consistent — a read that began before a replace completes observes one
single snapshot (its observations are always an initial segment of the
entries of the site it acquired, never a mixture of snapshots) — and
visibility is monotone: the version counter never decreases, and a read that
had not begun at some state but has acquired by a later state holds a
snapshot at least as new as the earlier state — in particular a read
beginning after a replace returns sees the replaced snapshot or a later one. -/
theorem live_site_model_consistency :
    (∀ (site0 : Site) (s t : LiveState),
      LiveInit site0 s → LiveReach s t → LiveInv t) ∧
    (∀ (s t : LiveState), LiveReach s t → s.version ≤ t.version) ∧
    (∀ (s t : LiveState), LiveReach s t →
      ∀ (i : Nat) (r r' : Reader), s.readers[i]? = some r →
        r.phase = ReaderPhase.idle → t.readers[i]? = some r' →
        r'.phase ≠ ReaderPhase.idle → s.version ≤ r'.snapVersion) := by
  refine ⟨?_, ?_, ?_⟩
  · intro site0 s t hinit hreach
    exact LiveReach_inv hreach (LiveInit_inv hinit)
  · intro s t hreach
    exact LiveReach_version_mono hreach
  · intro s t hreach i r r' hr hp hr' hp'
    exact LiveReach_read_after hreach i r r' hr hp hr' hp'

/-- A concrete initial live state with one idle reader. -/
def liveS0 : LiveState :=
  { site := Site.mk [], version := 0, writerHolds := false, pending := none,
    readers := [{ phase := ReaderPhase.idle, snap := Site.mk [],
                  snapVersion := 0, k := 0, obs := [] }] }

/-- The concrete state after the reader of `liveS0` acquires the read guard. -/
def liveS1 : LiveState :=
  liveS0.setReader 0 (acquiredReader liveS0)

/-- Witness for C2: the consistency theorem applied to a concrete run in
which the single reader acquires the read guard. -/
theorem live_site_model_consistency_witness :
    LiveInv liveS0 ∧ liveS0.version ≤ liveS1.version ∧
      liveS0.version ≤ (acquiredReader liveS0).snapVersion := by
  have hinit : LiveInit (Site.mk []) liveS0 := by
    refine ⟨rfl, rfl, rfl, rfl, ?_⟩
    intro r hr
    simp only [liveS0, List.mem_singleton] at hr
    subst hr
    exact ⟨rfl, rfl⟩
  have hstep : LiveStep liveS0 liveS1 :=
    LiveStep.rAcquire liveS0 0
      { phase := ReaderPhase.idle, snap := Site.mk [], snapVersion := 0,
        k := 0, obs := [] } rfl rfl rfl
  refine ⟨live_site_model_consistency.1 (Site.mk []) liveS0 liveS0 hinit
      Relation.ReflTransGen.refl,
    live_site_model_consistency.2.1 liveS0 liveS1
      (Relation.ReflTransGen.single hstep),
    live_site_model_consistency.2.2 liveS0 liveS1
      (Relation.ReflTransGen.single hstep) 0
      { phase := ReaderPhase.idle, snap := Site.mk [], snapVersion := 0,
        k := 0, obs := [] }
      (acquiredReader liveS0) rfl rfl ?_ (by simp [acquiredReader])⟩
  simp only [liveS1, LiveState.setReader, liveS0]
  rfl
